import Mathlib

/-!
Shallow embedding of the QuickShift migration engine (src/main.rs).

Paths are lists of components; the filesystem is an association list from
paths to entries. Filesystem side effects are modelled by explicit state
passing; fallible operations return Except. The Env record injects the
environment-dependent failures the code reacts to: a cross-volume rename
failure, a copy failure of a given io kind, a source-delete failure.
Parallel dispatch of independent tasks is modelled as one linearisation of
the worker pool: tasks run to completion in dispatch order, each seeing the
filesystem state left by the previous ones.
-/

namespace QuickShift

/-- A filesystem entry: a regular file with its content, a directory, or
anything else (special file, broken symlink) - neither file nor directory. -/
inductive Entry : Type
  | file (content : String)
  | dir
  | other
deriving DecidableEq, Repr

/-- A path, as its list of components. -/
abbrev FPath := List String

/-- The filesystem: an association list from paths to entries. -/
abbrev FS := List (FPath × Entry)

/-- Association-list lookup keyed by paths (first binding wins). -/
def lookupBy {β : Type} : List (FPath × β) → FPath → Option β
  | [], _ => none
  | (k, b) :: rest, p => if k = p then some b else lookupBy rest p

/-- Remove every binding of key k. -/
def eraseFS : FS → FPath → FS
  | [], _ => []
  | kv :: rest, k => if kv.1 = k then eraseFS rest k else kv :: eraseFS rest k

/-- Bind key k to entry e, replacing any previous binding. -/
def insertFS (fs : FS) (k : FPath) (e : Entry) : FS :=
  (k, e) :: eraseFS fs k

/-- Embedding of Path::exists(). -/
def existsAt (fs : FS) (p : FPath) : Bool :=
  (lookupBy fs p).isSome

/-- Embedding of Path::is_dir(). -/
def isDir (fs : FS) (p : FPath) : Bool :=
  match lookupBy fs p with
  | some .dir => true
  | _ => false

/-- Embedding of Path::is_file(). -/
def isFile (fs : FS) (p : FPath) : Bool :=
  match lookupBy fs p with
  | some (.file _) => true
  | _ => false

/-- root is a (possibly improper) leading part of p. -/
def underPath : FPath → FPath → Bool
  | [], _ => true
  | _ :: _, [] => false
  | a :: as, b :: bs => decide (a = b) && underPath as bs

/-- p lies strictly below root. -/
def strictUnder (root p : FPath) : Bool :=
  underPath root p && decide (root ≠ p)

/-- The nonempty leading parts of p, shortest first (the directories that
fs::create_dir_all walks). -/
def nonNilInits (p : FPath) : List FPath :=
  (List.range p.length).map (fun i => p.take (i + 1))

/-- Embedding of Path::parent(). -/
def parentOf : FPath → Option FPath
  | [] => none
  | p => some p.dropLast

/-- The destination of an enumerated entry: the source-root part of the
path is replaced by the destination root (dest_dir.join(rel_path)). -/
def mapDest (srcDir destDir p : FPath) : FPath :=
  destDir ++ p.drop srcDir.length

/-- The std io error kinds the engine distinguishes. -/
inductive ErrKind : Type
  | alreadyExists
  | notADirectory
  | notFound
  | directoryNotEmpty
  | permissionDenied
  | otherErr
deriving DecidableEq, Repr

/-- Injected environment failures: sources whose fs::rename fails (for
example because the destination is on another volume), sources whose
fs::copy fails with a given kind, sources whose fs::remove_file fails. -/
structure Env : Type where
  renameFailSrcs : List FPath
  copyFail : List (FPath × ErrKind)
  removeFileFailSrcs : List FPath
deriving DecidableEq, Repr

/-- An environment with no injected failures. -/
def envClean : Env := ⟨[], [], []⟩

/-- One step of fs::create_dir_all over the leading parts of the path: an
existing directory is fine, an existing non-directory is an error, a
missing part is created. -/
def createStep : FS → List FPath → Except ErrKind FS
  | fs, [] => .ok fs
  | fs, q :: rest =>
    match lookupBy fs q with
    | none => createStep (insertFS fs q .dir) rest
    | some .dir => createStep fs rest
    | some _ => .error .notADirectory

/-- Embedding of create_dir_with_long_path_support: on non-Windows builds
this is exactly fs::create_dir_all. -/
def createDirAll (fs : FS) (p : FPath) : Except ErrKind FS :=
  createStep fs (nonNilInits p)

/-- Embedding of fs::rename: fails when the environment says so or when
the source is missing; otherwise moves the entry to the destination. -/
def rename (env : Env) (fs : FS) (src dst : FPath) : Except Unit FS :=
  if env.renameFailSrcs.contains src then .error ()
  else
    match lookupBy fs src with
    | none => .error ()
    | some e => .ok (insertFS (eraseFS fs src) dst e)

/-- Embedding of fs::copy: fails when the environment says so or when the
source is not a regular file; otherwise writes the source bytes at dst. -/
def copyFile (env : Env) (fs : FS) (src dst : FPath) : Except ErrKind FS :=
  match lookupBy env.copyFail src with
  | some k => .error k
  | none =>
    match lookupBy fs src with
    | some (.file c) => .ok (insertFS fs dst (.file c))
    | _ => .error .otherErr

/-- Best-effort fs::remove_file as used at call sites that discard the
result (let _ = ...): removes a regular file when it can. -/
def removeFileBE (env : Env) (fs : FS) (p : FPath) : FS :=
  if env.removeFileFailSrcs.contains p then fs
  else
    match lookupBy fs p with
    | some (.file _) => eraseFS fs p
    | _ => fs

/-- Embedding of fs::remove_dir: removes an empty directory only. -/
def removeDir (fs : FS) (p : FPath) : Except ErrKind FS :=
  match lookupBy fs p with
  | none => .error .notFound
  | some .dir =>
    if fs.any (fun kv => strictUnder p kv.1) then .error .directoryNotEmpty
    else .ok (eraseFS fs p)
  | some _ => .error .otherErr

/-- A regular-file entry. -/
def isFileEntry : Entry → Bool
  | .file _ => true
  | _ => false

/-- A directory entry. -/
def isDirEntry : Entry → Bool
  | .dir => true
  | _ => false

/-- An entry that is neither a regular file nor a directory. -/
def isOtherEntry : Entry → Bool
  | .other => true
  | _ => false

/-- The filesystem entries strictly below a root. -/
def entriesUnder (fs : FS) (root : FPath) : List (FPath × Entry) :=
  fs.filter (fun kv => strictUnder root kv.1)

/-- struct FileMoveTask: a source path with its computed destination. -/
structure FileMoveTask : Type where
  src : FPath
  dst : FPath
deriving DecidableEq, Repr

/-- The per-task fatal error move_single_item can return: a copy failure
with its io kind (the code wraps it in the context Copy failed). -/
inductive MoveError : Type
  | copyFailed (k : ErrKind)
deriving DecidableEq, Repr

/-- The discarded create_dir call on dst.parent() in the file branch of
move_single_item: the result of the creation is ignored. -/
def ensureParent (fs : FS) (dst : FPath) : FS :=
  match parentOf dst with
  | none => fs
  | some par =>
    match createDirAll fs par with
    | .ok fs' => fs'
    | .error _ => fs

/-- Embedding of move_single_item: skip when the destination exists; for a
directory source, create the destination directory discarding any error;
for a file source, ensure the parent, re-check the destination, try
rename, and on rename failure fall back to copy (skipping on an
already-exists copy failure, failing on any other copy failure) followed
by a best-effort delete of the source; anything else is a no-op. -/
def move_single_item (env : Env) (fs : FS) (src dst : FPath) :
    FS × Option MoveError :=
  if existsAt fs dst then (fs, none)
  else if isDir fs src then
    match createDirAll fs dst with
    | .ok fs' => (fs', none)
    | .error _ => (fs, none)
  else if isFile fs src then
    if existsAt (ensureParent fs dst) dst then (ensureParent fs dst, none)
    else
      match rename env (ensureParent fs dst) src dst with
      | .ok fs2 => (fs2, none)
      | .error _ =>
        if existsAt (ensureParent fs dst) dst then
          (removeFileBE env (ensureParent fs dst) src, none)
        else
          match copyFile env (ensureParent fs dst) src dst with
          | .ok fs2 => (removeFileBE env fs2 src, none)
          | .error k =>
            if k = .alreadyExists then (ensureParent fs dst, none)
            else (ensureParent fs dst, some (.copyFailed k))
  else (fs, none)

/-- The errors move_directory_concurrent can return: a missing or
non-directory source, a failed destination-root creation in the zero-task
branch, or the first per-task failure in dispatch order. -/
inductive RunError : Type
  | sourceNotExist
  | sourceNotDir
  | createDestFailed (k : ErrKind)
  | moveFailed (src dst : FPath) (e : MoveError)
deriving DecidableEq, Repr

/-- The visible counts of a successful run: enumerated total, tasks
dropped by the filter, tasks processed by the pool, tasks failed. -/
structure RunStats : Type where
  total : Nat
  skipped : Nat
  processed : Nat
  failed : Nat
deriving DecidableEq, Repr

/-- The WalkDir pass over the source root: the root itself first, then
every entry strictly below it, in filesystem order. -/
def enumerate (fs : FS) (srcDir : FPath) : List FPath :=
  srcDir :: (fs.map Prod.fst).filter (fun p => strictUnder srcDir p)

/-- One FileMoveTask per enumerated entry, with the destination computed
by replacing the source root with the destination root. -/
def enumerateTasks (fs : FS) (srcDir destDir : FPath) : List FileMoveTask :=
  (enumerate fs srcDir).map (fun p => ⟨p, mapDest srcDir destDir p⟩)

/-- The idempotency-filter predicate of move_directory_concurrent: a task
whose source is a directory or a regular file is kept only when its
destination does not exist; every other task is kept unconditionally. -/
def keepTask (fs : FS) (t : FileMoveTask) : Bool :=
  if isDir fs t.src then !(existsAt fs t.dst)
  else if isFile fs t.src then !(existsAt fs t.dst)
  else true

/-- tasks_to_process: the enumerated tasks that pass the filter. -/
def tasksToProcess (fs : FS) (srcDir destDir : FPath) : List FileMoveTask :=
  (enumerateTasks fs srcDir destDir).filter (keepTask fs)

/-- The worker pool: every dispatched task runs to a terminal outcome (the
pool never preempts in-flight work) and outcomes are collected in dispatch
order, each task seeing the state left by the previous ones. -/
def runTasks (env : Env) (fs : FS) (ts : List FileMoveTask) :
    FS × List (FileMoveTask × Option MoveError) :=
  match ts with
  | [] => (fs, [])
  | t :: rest =>
    ((runTasks env (move_single_item env fs t.src t.dst).1 rest).1,
      (t, (move_single_item env fs t.src t.dst).2) ::
        (runTasks env (move_single_item env fs t.src t.dst).1 rest).2)

/-- The aggregation loop over collected results: the first error in
dispatch order, if any, together with its task. -/
def firstError : List (FileMoveTask × Option MoveError) →
    Option (FileMoveTask × MoveError)
  | [] => none
  | (t, some e) :: _ => some (t, e)
  | (_, none) :: rest => firstError rest

/-- The final fs::remove_dir on the source root: every failure is
swallowed (not-found and not-empty silently, the rest with a warning). -/
def cleanupRoot (fs : FS) (srcDir : FPath) : FS :=
  match removeDir fs srcDir with
  | .ok fs' => fs'
  | .error _ => fs

/-- Embedding of move_directory_concurrent: validate the source, walk it
into tasks, short-circuit on an empty walk (creating the destination
root), filter tasks whose destination exists, short-circuit when nothing
is left, run the pool, return the first failure in dispatch order, and on
success attempt to remove the now-possibly-empty source root. -/
def move_directory_concurrent (env : Env) (fs : FS) (srcDir destDir : FPath) :
    FS × Except RunError RunStats :=
  if existsAt fs srcDir = false then (fs, .error .sourceNotExist)
  else if isDir fs srcDir = false then (fs, .error .sourceNotDir)
  else if (enumerateTasks fs srcDir destDir).isEmpty then
    match createDirAll fs destDir with
    | .ok fs' => (fs', .ok ⟨0, 0, 0, 0⟩)
    | .error k => (fs, .error (.createDestFailed k))
  else if (tasksToProcess fs srcDir destDir).isEmpty then
    (fs, .ok ⟨(enumerateTasks fs srcDir destDir).length,
        (enumerateTasks fs srcDir destDir).length
          - (tasksToProcess fs srcDir destDir).length, 0, 0⟩)
  else
    match firstError (runTasks env fs (tasksToProcess fs srcDir destDir)).2 with
    | some te =>
      ((runTasks env fs (tasksToProcess fs srcDir destDir)).1,
        .error (.moveFailed te.1.src te.1.dst te.2))
    | none =>
      (cleanupRoot (runTasks env fs (tasksToProcess fs srcDir destDir)).1 srcDir,
        .ok ⟨(enumerateTasks fs srcDir destDir).length,
            (enumerateTasks fs srcDir destDir).length
              - (tasksToProcess fs srcDir destDir).length,
            (tasksToProcess fs srcDir destDir).length, 0⟩)

/-- Concrete filesystem for the C1 counterexample: the source holds a
special entry w whose destination already exists. -/
def fsC1 : FS :=
  [(["s"], .dir), (["s", "w"], .other), (["t"], .dir),
   (["t", "w"], .file "old")]

/-- Concrete filesystem for the C2 counterexample: one source file, the
destination root already present and empty. -/
def fsC2 : FS :=
  [(["s"], .dir), (["s", "b"], .file "bye"), (["t"], .dir)]

/-- The example scenario of the spec: source holds the directory a, the
file a/x with content hi and the file b with content bye; the destination
root exists and is empty. -/
def fsC3 : FS :=
  [(["s"], .dir), (["s", "a"], .dir), (["s", "a", "x"], .file "hi"),
   (["s", "b"], .file "bye"), (["t"], .dir)]

/-- Concrete filesystem for the C5 failing input: the destination parent
t/x of a directory task is blocked by a regular file. -/
def fsC5 : FS :=
  [(["s"], .dir), (["s", "a"], .dir), (["t"], .dir),
   (["t", "x"], .file "blocker")]

/-- Concrete filesystem for the C6 counterexample: a special source entry
whose destination exists as a directory. -/
def fsC6 : FS :=
  [(["s"], .dir), (["s", "w"], .other), (["t"], .dir), (["t", "w"], .dir)]

/-- Concrete filesystem for the C7 witness: one source file and the
destination root already present. -/
def fsC7 : FS :=
  [(["s"], .dir), (["s", "f"], .file "data"), (["t"], .dir)]

/-- Environment for the C7 witness: rename of the source file fails, copy
succeeds, deleting the source file fails. -/
def envC7 : Env := ⟨[["s", "f"]], [], [["s", "f"]]⟩

/-- Concrete filesystem for the C8 witness: two source files, destination
root present. -/
def fsC8 : FS :=
  [(["s"], .dir), (["t"], .dir), (["s", "f"], .file "1"),
   (["s", "g"], .file "2")]

/-- Environment for the C8 witness: both files fail rename and fail copy
with a permission error, so both tasks fail. -/
def envC8 : Env :=
  ⟨[["s", "f"], ["s", "g"]],
   [(["s", "f"], .permissionDenied), (["s", "g"], .permissionDenied)], []⟩

/-- Erasing a key makes its lookup none and leaves every other key alone. -/
theorem lookup_erase (fs : FS) (k r : FPath) :
    lookupBy (eraseFS fs k) r = if r = k then none else lookupBy fs r := by
  induction fs with
  | nil => simp [eraseFS, lookupBy]
  | cons kv tl ih =>
    obtain ⟨p, e⟩ := kv
    simp only [eraseFS, lookupBy]
    by_cases hpk : p = k
    · subst hpk
      rw [if_pos rfl, ih]
      by_cases hrp : r = p
      · simp [hrp]
      · have hpr : ¬ p = r := fun h => hrp h.symm
        simp [hrp, lookupBy, hpr]
    · rw [if_neg hpk]
      simp only [lookupBy]
      by_cases hpr : p = r
      · have hrk : ¬ r = k := fun h => hpk (hpr.trans h)
        simp [hpr, hrk]
      · simp only [if_neg hpr]
        exact ih

/-- Inserting a key binds it and leaves every other key alone. -/
theorem lookup_insert (fs : FS) (k r : FPath) (e : Entry) :
    lookupBy (insertFS fs k e) r = if k = r then some e else lookupBy fs r := by
  by_cases hkr : k = r
  · simp [insertFS, lookupBy, hkr]
  · have hrk : ¬ r = k := fun h => hkr h.symm
    simp [insertFS, lookupBy, hkr, lookup_erase, hrk]

/-- A bound key is bound to something, so existsAt is true. -/
theorem existsAt_true_of_lookup (fs : FS) (p : FPath) (e : Entry)
    (h : lookupBy fs p = some e) : existsAt fs p = true := by
  simp [existsAt, h]

/-- A path that does not exist has no binding. -/
theorem lookup_none_of_not_exists (fs : FS) (p : FPath)
    (h : ¬ existsAt fs p = true) : lookupBy fs p = none := by
  unfold existsAt at h
  cases hl : lookupBy fs p with
  | none => rfl
  | some e => rw [hl] at h; simp at h

/-- A regular file is not a directory. -/
theorem not_isDir_of_isFile (fs : FS) (p : FPath) (h : isFile fs p = true) :
    isDir fs p = false := by
  unfold isFile at h
  unfold isDir
  revert h
  cases lookupBy fs p with
  | none => intro h; simp at h
  | some e => cases e <;> intro h <;> simp_all

/-- create_dir_all never disturbs a key that is already bound. -/
theorem createStep_preserves (l : List FPath) (fs fs' : FS) (q : FPath)
    (e : Entry) (hq : lookupBy fs q = some e) (h : createStep fs l = .ok fs') :
    lookupBy fs' q = some e := by
  induction l generalizing fs with
  | nil =>
    simp only [createStep, Except.ok.injEq] at h
    exact h ▸ hq
  | cons a rest ih =>
    simp only [createStep] at h
    cases ha : lookupBy fs a with
    | none =>
      rw [ha] at h
      refine ih (insertFS fs a .dir) ?_ h
      rw [lookup_insert]
      have haq : ¬ a = q := fun hh => by rw [hh, hq] at ha; cases ha
      simp [haq, hq]
    | some e' =>
      rw [ha] at h
      cases e' with
      | dir => exact ih fs hq h
      | file c => simp at h
      | other => simp at h

/-- createDirAll never disturbs a key that is already bound. -/
theorem createDirAll_preserves (fs fs' : FS) (p q : FPath) (e : Entry)
    (hq : lookupBy fs q = some e) (h : createDirAll fs p = .ok fs') :
    lookupBy fs' q = some e :=
  createStep_preserves (nonNilInits p) fs fs' q e hq h

/-- The discarded parent creation never disturbs a key that is bound. -/
theorem ensureParent_preserves (fs : FS) (dst q : FPath) (e : Entry)
    (hq : lookupBy fs q = some e) :
    lookupBy (ensureParent fs dst) q = some e := by
  unfold ensureParent
  split
  · exact hq
  · split
    · next fs' hc => exact createDirAll_preserves fs fs' _ q e hq hc
    · exact hq

/-- A successful rename only erases its source and writes its missing
destination; every other bound key keeps its binding. -/
theorem rename_preserves (env : Env) (fs : FS) (src dst q : FPath) (e : Entry)
    (fs2 : FS) (hq : lookupBy fs q = some e) (hqs : q ≠ src) (hqd : dst ≠ q)
    (h : rename env fs src dst = .ok fs2) :
    lookupBy fs2 q = some e := by
  unfold rename at h
  by_cases hc : env.renameFailSrcs.contains src = true
  · rw [if_pos hc] at h
    simp at h
  · rw [if_neg hc] at h
    cases hl : lookupBy fs src with
    | none => rw [hl] at h; simp at h
    | some e' =>
      rw [hl] at h
      simp only [Except.ok.injEq] at h
      subst h
      rw [lookup_insert, if_neg hqd, lookup_erase,
        if_neg (fun hh => hqs hh), hq]

/-- A successful copy only writes its missing destination; every other
bound key keeps its binding. -/
theorem copyFile_preserves (env : Env) (fs : FS) (src dst q : FPath)
    (e : Entry) (fs2 : FS) (hq : lookupBy fs q = some e) (hqd : dst ≠ q)
    (h : copyFile env fs src dst = .ok fs2) : lookupBy fs2 q = some e := by
  unfold copyFile at h
  cases hk : lookupBy env.copyFail src with
  | some k => rw [hk] at h; simp at h
  | none =>
    rw [hk] at h
    cases hl : lookupBy fs src with
    | none => rw [hl] at h; simp at h
    | some e' =>
      rw [hl] at h
      cases e' with
      | dir => simp at h
      | other => simp at h
      | file c =>
        simp only [Except.ok.injEq] at h
        subst h
        rw [lookup_insert, if_neg hqd, hq]

/-- The best-effort source delete only erases its own path. -/
theorem removeFileBE_preserves (env : Env) (fs : FS) (p q : FPath) (e : Entry)
    (hq : lookupBy fs q = some e) (hqp : q ≠ p) :
    lookupBy (removeFileBE env fs p) q = some e := by
  unfold removeFileBE
  split
  · exact hq
  · split
    · rw [lookup_erase, if_neg hqp]
      exact hq
    · exact hq

/-- Core frame property of the single-item mover: a key that is bound, is
not the task source (unless it is bound to a directory, which the mover
never deletes), keeps its binding through the whole move, whatever the
injected failures. -/
theorem msi_preserves (env : Env) (fs : FS) (src dst q : FPath) (e : Entry)
    (hq : lookupBy fs q = some e) (hne : q ≠ src ∨ e = Entry.dir) :
    lookupBy (move_single_item env fs src dst).1 q = some e := by
  unfold move_single_item
  by_cases h1 : existsAt fs dst = true
  · rw [if_pos h1]
    exact hq
  · rw [if_neg h1]
    by_cases h2 : isDir fs src = true
    · rw [if_pos h2]
      split

      · next fs' hc => exact createDirAll_preserves fs fs' dst q e hq hc
      · exact hq
    · rw [if_neg h2]
      by_cases h3 : isFile fs src = true
      · rw [if_pos h3]
        have hqs : q ≠ src := by
          rcases hne with h | h
          · exact h
          · intro hqsrc
            rw [← hqsrc] at h3
            unfold isFile at h3
            rw [hq, h] at h3
            simp at h3
        have hq1 : lookupBy (ensureParent fs dst) q = some e :=
          ensureParent_preserves fs dst q e hq
        by_cases h4 : existsAt (ensureParent fs dst) dst = true
        · rw [if_pos h4]
          exact hq1
        · rw [if_neg h4]
          have hd1 : lookupBy (ensureParent fs dst) dst = none :=
            lookup_none_of_not_exists _ _ h4
          have hdq : dst ≠ q := by
            intro hh
            rw [← hh] at hq1
            rw [hq1] at hd1
            cases hd1
          split
          · next fs2 hr =>
            exact rename_preserves env (ensureParent fs dst) src dst q e fs2
              hq1 hqs hdq hr
          · next u hr =>
            rw [if_neg h4]
            split
            · next fs2 hcp =>
              exact removeFileBE_preserves env fs2 src q e
                (copyFile_preserves env (ensureParent fs dst) src dst q e fs2
                  hq1 hdq hcp) hqs
            · next k hcp =>
              by_cases hk : k = ErrKind.alreadyExists
              · rw [if_pos hk]
                exact hq1
              · rw [if_neg hk]
                exact hq1
      · rw [if_neg h3]
        exact hq

/-- The worker pool preserves any binding whose key is no task's source
(or whose entry is a directory). -/
theorem runTasks_preserves (env : Env) (ts : List FileMoveTask) (fs : FS)
    (q : FPath) (e : Entry) (hq : lookupBy fs q = some e)
    (hne : ∀ t ∈ ts, q ≠ t.src ∨ e = Entry.dir) :
    lookupBy (runTasks env fs ts).1 q = some e := by
  induction ts generalizing fs with
  | nil => exact hq
  | cons t rest ih =>
    exact ih (move_single_item env fs t.src t.dst).1
      (msi_preserves env fs t.src t.dst q e hq (hne t (by simp)))
      (fun t' ht' => hne t' (by simp [ht']))

/-- The final source-root removal touches no other key. -/
theorem cleanupRoot_preserves (fs : FS) (srcDir q : FPath) (e : Entry)
    (hq : lookupBy fs q = some e) (hqr : q ≠ srcDir) :
    lookupBy (cleanupRoot fs srcDir) q = some e := by
  unfold cleanupRoot removeDir
  split
  · next fs' hrm =>
    split at hrm
    · simp at hrm
    · split at hrm
      · simp at hrm
      · simp only [Except.ok.injEq] at hrm
        subst hrm
        rw [lookup_erase, if_neg hqr]
        exact hq
    · simp at hrm
  · exact hq

/-- Full-run frame property: a key that is no enumerated task's source
(unless bound to a directory) and is not the source root keeps its binding
through the whole run. -/
theorem run_preserves (env : Env) (fs : FS) (srcDir destDir q : FPath)
    (e : Entry) (hq : lookupBy fs q = some e)
    (hsrcs : ∀ t ∈ enumerateTasks fs srcDir destDir, q ≠ t.src ∨ e = Entry.dir)
    (hroot : q ≠ srcDir) :
    lookupBy (move_directory_concurrent env fs srcDir destDir).1 q = some e := by
  unfold move_directory_concurrent
  by_cases h1 : existsAt fs srcDir = false
  · rw [if_pos h1]
    exact hq
  · rw [if_neg h1]
    by_cases h2 : isDir fs srcDir = false
    · rw [if_pos h2]
      exact hq
    · rw [if_neg h2]
      by_cases h3 : (enumerateTasks fs srcDir destDir).isEmpty = true
      · rw [if_pos h3]
        split
        · next fs' hc => exact createDirAll_preserves fs fs' destDir q e hq hc
        · exact hq
      · rw [if_neg h3]
        by_cases h4 : (tasksToProcess fs srcDir destDir).isEmpty = true
        · rw [if_pos h4]
          exact hq
        · rw [if_neg h4]
          have hrt : lookupBy
              (runTasks env fs (tasksToProcess fs srcDir destDir)).1 q
                = some e :=
            runTasks_preserves env (tasksToProcess fs srcDir destDir) fs q e hq
              (fun t ht => hsrcs t (List.mem_of_mem_filter ht))
          split
          · exact hrt
          · exact cleanupRoot_preserves _ srcDir q e hrt hroot

/-- Any path leads to itself. -/
theorem underPath_refl (p : FPath) : underPath p p = true := by
  induction p with
  | nil => rfl
  | cons a as ih => simp [underPath, ih]

/-- A strictly lower path is distinct from the root. -/
theorem ne_of_strict (root p : FPath) (h : strictUnder root p = true) :
    root ≠ p := by
  unfold strictUnder at h
  simp only [Bool.and_eq_true, decide_eq_true_eq] at h
  exact h.2

/-- A strictly lower path is below the root. -/
theorem underPath_of_strict (root p : FPath) (h : strictUnder root p = true) :
    underPath root p = true := by
  unfold strictUnder at h
  simp only [Bool.and_eq_true] at h
  exact h.1

/-- Every enumerated task's source lies below the source root. -/
theorem enum_src_under (fs : FS) (srcDir destDir : FPath) (t : FileMoveTask)
    (ht : t ∈ enumerateTasks fs srcDir destDir) :
    underPath srcDir t.src = true := by
  unfold enumerateTasks enumerate at ht
  rcases List.mem_map.mp ht with ⟨p, hp, rfl⟩
  rcases List.mem_cons.mp hp with h | hp
  · subst h
    exact underPath_refl _
  · exact underPath_of_strict _ _ (List.of_mem_filter hp)

/-- The source root maps to the destination root. -/
theorem mapDest_root (srcDir destDir : FPath) :
    mapDest srcDir destDir srcDir = destDir := by
  simp [mapDest, List.drop_length]

/-- A file or directory task whose destination exists is dropped by the
filter. -/
theorem keepTask_false_of_exists (fs : FS) (t : FileMoveTask)
    (hkind : isDir fs t.src = true ∨ isFile fs t.src = true)
    (hex : existsAt fs t.dst = true) : keepTask fs t = false := by
  unfold keepTask
  rcases hkind with h | h
  · simp [h, hex]
  · simp [not_isDir_of_isFile fs t.src h, h, hex]

/-- A list of entries splits into its files, directories and the rest. -/
theorem count_split (m : List (FPath × Entry)) :
    m.length = (m.filter (fun kv => isFileEntry kv.2)).length
      + (m.filter (fun kv => isDirEntry kv.2)).length
      + (m.filter (fun kv => isOtherEntry kv.2)).length := by
  induction m with
  | nil => rfl
  | cons kv tl ih =>
    obtain ⟨p, e⟩ := kv
    rw [List.length_cons, ih]
    cases e <;>
      simp [List.filter_cons, isFileEntry, isDirEntry, isOtherEntry] <;>
      omega

/-- Filtering the keys of a map is filtering the map. -/
theorem length_filter_keys (fs : List (FPath × Entry)) (P : FPath → Bool) :
    ((fs.map Prod.fst).filter P).length
      = (fs.filter (fun kv => P kv.1)).length := by
  induction fs with
  | nil => rfl
  | cons kv tl ih =>
    simp only [List.map_cons, List.filter_cons]
    by_cases h : P kv.1 = true <;> simp [h, ih]

/-- When every walked leading part is absent or already a directory,
create_dir_all succeeds and afterwards each of them is a directory. -/
theorem createStep_ok (l : List FPath) (fs : FS)
    (h : ∀ q ∈ l, lookupBy fs q = none ∨ lookupBy fs q = some Entry.dir) :
    ∃ fs', createStep fs l = .ok fs'
      ∧ ∀ q ∈ l, lookupBy fs' q = some Entry.dir := by
  induction l generalizing fs with
  | nil => exact ⟨fs, rfl, by simp⟩
  | cons a rest ih =>
    rcases h a (by simp) with ha | ha
    · have hrest : ∀ q ∈ rest, lookupBy (insertFS fs a .dir) q = none
          ∨ lookupBy (insertFS fs a .dir) q = some Entry.dir := by
        intro q hqr
        rw [lookup_insert]
        by_cases haq : a = q
        · right
          rw [if_pos haq]
        · rw [if_neg haq]
          exact h q (by simp [hqr])
      rcases ih (insertFS fs a .dir) hrest with ⟨fs', hok, hall⟩
      refine ⟨fs', ?_, ?_⟩
      · simp only [createStep, ha, hok]
      · intro q hq
        rcases List.mem_cons.mp hq with rfl | hqr
        · refine createStep_preserves rest (insertFS fs q .dir) fs' q
            Entry.dir ?_ hok
          rw [lookup_insert, if_pos rfl]
        · exact hall q hqr
    · have hrest : ∀ q ∈ rest, lookupBy fs q = none
          ∨ lookupBy fs q = some Entry.dir :=
        fun q hqr => h q (by simp [hqr])
      rcases ih fs hrest with ⟨fs', hok, hall⟩
      refine ⟨fs', ?_, ?_⟩
      · simp only [createStep, ha, hok]
      · intro q hq
        rcases List.mem_cons.mp hq with rfl | hqr
        · exact createStep_preserves rest fs fs' q Entry.dir ha hok
        · exact hall q hqr

/-- A nonempty path is among its own nonempty leading parts. -/
theorem self_mem_nonNilInits (p : FPath) (h : p ≠ []) : p ∈ nonNilInits p := by
  unfold nonNilInits
  rw [List.mem_map]
  have hpos : 0 < p.length := List.length_pos.mpr h
  refine ⟨p.length - 1, ?_, ?_⟩
  · rw [List.mem_range]
    omega
  · have heq : p.length - 1 + 1 = p.length := by omega
    rw [heq, List.take_length]

/-- The pool reports one outcome per dispatched task. -/
theorem runTasks_length (env : Env) (fs : FS) (ts : List FileMoveTask) :
    (runTasks env fs ts).2.length = ts.length := by
  induction ts generalizing fs with
  | nil => rfl
  | cons t rest ih => simp [runTasks, ih]

/-- Scanning results whose leading block is error-free finds the first
error right after that block. -/
theorem firstError_of_decomp (pre : List (FileMoveTask × Option MoveError))
    (t : FileMoveTask) (e : MoveError)
    (post : List (FileMoveTask × Option MoveError))
    (hpre : ∀ x ∈ pre, x.2 = none) :
    firstError (pre ++ (t, some e) :: post) = some (t, e) := by
  induction pre with
  | nil => rfl
  | cons x xs ih =>
    obtain ⟨t', o⟩ := x
    have ho : o = none := hpre (t', o) (by simp)
    subst ho
    simp only [List.cons_append, firstError]
    exact ih (fun y hy => hpre y (by simp [hy]))

/-- Scanning results that hold no error finds none. -/
theorem firstError_none (rs : List (FileMoveTask × Option MoveError))
    (h : ∀ x ∈ rs, x.2 = none) : firstError rs = none := by
  induction rs with
  | nil => rfl
  | cons x xs ih =>
    obtain ⟨t', o⟩ := x
    have ho : o = none := h (t', o) (by simp)
    subst ho
    simp only [firstError]
    exact ih (fun y hy => h y (by simp [hy]))

/-- The walk of an existing source root is never empty: the root itself is
always its first entry. -/
theorem enumerateTasks_isEmpty (fs : FS) (srcDir destDir : FPath) :
    (enumerateTasks fs srcDir destDir).isEmpty = false := by
  unfold enumerateTasks enumerate
  simp

/-- C1 (amended): the single-item mover never overwrites a pre-existing
entry whose path is outside the source tree (in particular any
pre-existing destination entry): its binding is unchanged after the run
under every code path (every environment), and any task that targets it is
dropped by the filter - counted as skipped - whenever the task's source is
a file or a directory. (As stated the claim also demanded the skip count
for tasks whose source is neither a file nor a directory; those are kept,
not skipped - see the counterexample.) -/
theorem no_overwrite_outside_source
    (env : Env) (fs : FS) (srcDir destDir q : FPath) (e : Entry)
    (hq : lookupBy fs q = some e)
    (houtside : underPath srcDir q = false) :
    lookupBy (move_directory_concurrent env fs srcDir destDir).1 q = some e
    ∧ ∀ t ∈ enumerateTasks fs srcDir destDir,
        t.dst = q → (isDir fs t.src = true ∨ isFile fs t.src = true) →
          t ∉ tasksToProcess fs srcDir destDir := by
  have hne : ∀ t ∈ enumerateTasks fs srcDir destDir,
      q ≠ t.src ∨ e = Entry.dir := by
    intro t ht
    left
    intro hqt
    rw [hqt, enum_src_under fs srcDir destDir t ht] at houtside
    simp at houtside
  have hroot : q ≠ srcDir := by
    intro hh
    rw [hh, underPath_refl] at houtside
    simp at houtside
  refine ⟨run_preserves env fs srcDir destDir q e hq hne hroot, ?_⟩
  intro t ht hdst hkind hmem
  unfold tasksToProcess at hmem
  have hkeep := List.of_mem_filter hmem
  rw [keepTask_false_of_exists fs t hkind
    (by rw [hdst]; exact existsAt_true_of_lookup fs q e hq)] at hkeep
  simp at hkeep

/-- C1 witness: in the spec scenario the pre-existing destination root
keeps its binding and the root task that targets it is filtered out. -/
theorem no_overwrite_outside_source_witness :
    lookupBy (move_directory_concurrent envClean fsC3 ["s"] ["t"]).1 ["t"]
        = some Entry.dir
    ∧ (⟨["s"], ["t"]⟩ : FileMoveTask) ∉ tasksToProcess fsC3 ["s"] ["t"] := by
  have h := no_overwrite_outside_source envClean fsC3 ["s"] ["t"] ["t"]
    Entry.dir (by decide) (by decide)
  exact ⟨h.1, h.2 ⟨["s"], ["t"]⟩ (by decide) rfl (Or.inl (by decide))⟩

/-- C1 counterexample: a task whose source is neither a file nor a
directory and whose destination pre-exists is NOT counted as skipped: it
stays in the processing set, and the run reports it as processed (skipped
is 1, not 2, out of the 2 tasks that target pre-existing destinations). -/
theorem no_overwrite_skip_count_cex :
    existsAt fsC1 ["t", "w"] = true
    ∧ (⟨["s", "w"], ["t", "w"]⟩ : FileMoveTask) ∈ tasksToProcess fsC1 ["s"] ["t"]
    ∧ (move_directory_concurrent envClean fsC1 ["s"] ["t"]).2
        = .ok ⟨2, 1, 1, 0⟩ := by
  refine ⟨by decide, by decide, ?_⟩
  rfl

/-- C6 (amended): the filter keeps an enumerated task exactly when it is
not the case that its source is a directory or a regular file AND its
destination exists; in particular a task whose source is neither a file
nor a directory is always kept, even when its destination exists - so
existence of the destination alone is not sufficient to skip. -/
theorem filter_drop_characterization
    (fs : FS) (srcDir destDir : FPath) (t : FileMoveTask) :
    t ∈ tasksToProcess fs srcDir destDir ↔
      t ∈ enumerateTasks fs srcDir destDir
        ∧ ¬((isDir fs t.src = true ∨ isFile fs t.src = true)
              ∧ existsAt fs t.dst = true) := by
  unfold tasksToProcess
  rw [List.mem_filter]
  constructor
  · rintro ⟨hmem, hkeep⟩
    refine ⟨hmem, ?_⟩
    rintro ⟨hkind, hex⟩
    rw [keepTask_false_of_exists fs t hkind hex] at hkeep
    simp at hkeep
  · rintro ⟨hmem, hno⟩
    refine ⟨hmem, ?_⟩
    unfold keepTask
    by_cases hd : isDir fs t.src = true
    · have hex : existsAt fs t.dst = false := by
        cases hex : existsAt fs t.dst
        · rfl
        · exact absurd ⟨Or.inl hd, hex⟩ hno
      rw [if_pos hd, hex]
      rfl
    · rw [if_neg hd]
      by_cases hf : isFile fs t.src = true
      · have hex : existsAt fs t.dst = false := by
          cases hex : existsAt fs t.dst
          · rfl
          · exact absurd ⟨Or.inr hf, hex⟩ hno
        rw [if_pos hf, hex]
        rfl
      · rw [if_neg hf]

/-- C6 counterexample: a task whose source entry is neither a file nor a
directory is kept by the filter although its destination exists, refuting
that the filter drops a task if and only if its destination exists. -/
theorem filter_keeps_special_cex :
    existsAt fsC6 ["t", "w"] = true
    ∧ keepTask fsC6 ⟨["s", "w"], ["t", "w"]⟩ = true
    ∧ (⟨["s", "w"], ["t", "w"]⟩ : FileMoveTask)
        ∈ tasksToProcess fsC6 ["s"] ["t"] := by
  decide

/-- C10 (confirmed): the engine never removes a subdirectory of the source
root: any directory entry strictly below the source root is still a
directory entry after the run, under every environment. The only removals
are of regular files (rename or delete) and the final attempted removal of
the source root itself. -/
theorem no_subdir_removed
    (env : Env) (fs : FS) (srcDir destDir q : FPath)
    (hdir : lookupBy fs q = some Entry.dir)
    (hunder : strictUnder srcDir q = true) :
    lookupBy (move_directory_concurrent env fs srcDir destDir).1 q
      = some Entry.dir := by
  refine run_preserves env fs srcDir destDir q Entry.dir hdir
    (fun t _ => Or.inr rfl) ?_
  exact (ne_of_strict srcDir q hunder).symm

/-- C10 witness: in the spec scenario the source subdirectory a survives
the run as a directory. -/
theorem no_subdir_removed_witness :
    lookupBy (move_directory_concurrent envClean fsC3 ["s"] ["t"]).1
        ["s", "a"] = some Entry.dir :=
  no_subdir_removed envClean fsC3 ["s"] ["t"] ["s", "a"] (by decide) (by decide)

/-- C5 (code bug): on the directory task s/a -> t/x/a the destination
creation fails with a not-a-directory error (t/x is a regular file), which
is not an already-exists outcome, yet move_single_item discards the error
(the code writes let _ = create_dir_with_long_path_support(dst), despite
its own comment that only AlreadyExists is to be ignored) and reports the
task as successful instead of propagating a fatal error. -/
theorem create_dir_error_swallowed :
    createDirAll fsC5 ["t", "x", "a"] = .error .notADirectory
    ∧ move_single_item envClean fsC5 ["s", "a"] ["t", "x", "a"]
        = (fsC5, none) :=
  ⟨rfl, rfl⟩

/-- C2 counterexample: after a first successful run on a source holding
only the file b (destination root present and empty), the source root is
empty, so the engine removes it; a second run then fails with a missing
source instead of succeeding with zero processed items and a skip count
equal to the two destination entries involved. -/
theorem rerun_after_success_cex :
    (move_directory_concurrent envClean fsC2 ["s"] ["t"]).2 = .ok ⟨2, 1, 1, 0⟩
    ∧ (move_directory_concurrent envClean
        (move_directory_concurrent envClean fsC2 ["s"] ["t"]).1 ["s"] ["t"]).2
        = .error .sourceNotExist :=
  ⟨rfl, rfl⟩

/-- The walk of a source root yields exactly one task more than there are
entries strictly below the root. -/
theorem enumerateTasks_length (fs : FS) (srcDir destDir : FPath) :
    (enumerateTasks fs srcDir destDir).length
      = (entriesUnder fs srcDir).length + 1 := by
  unfold enumerateTasks enumerate entriesUnder
  rw [List.length_map, List.length_cons, length_filter_keys]

/-- C2 (amended): for every (source, destination) pair and every
environment, a run on a missing source root - in particular a second run
after a first run that emptied and removed the root - fails with the
missing-source error instead of succeeding; and whenever the source root
survives as a directory and the filter drops every enumerated task (each
surviving entry is a file or directory whose destination already exists,
as after a successful first run), the run processes zero items and its
total skip count equals the number of entries still present at and under
the source root - the root itself plus the surviving entries - which is in
general fewer than the number of items a first run created, because
moved-away files are no longer enumerated. -/
theorem rerun_skip_semantics (env : Env) (fs : FS) (srcDir destDir : FPath) :
    (existsAt fs srcDir = false →
      move_directory_concurrent env fs srcDir destDir
        = (fs, .error .sourceNotExist))
    ∧ (existsAt fs srcDir = true → isDir fs srcDir = true →
       tasksToProcess fs srcDir destDir = [] →
        move_directory_concurrent env fs srcDir destDir
          = (fs, .ok ⟨(entriesUnder fs srcDir).length + 1,
              (entriesUnder fs srcDir).length + 1, 0, 0⟩)) := by
  constructor
  · intro h1
    unfold move_directory_concurrent
    rw [if_pos h1]
  · intro hex hdir htp
    have hlen := enumerateTasks_length fs srcDir destDir
    unfold move_directory_concurrent
    rw [if_neg (by simp [hex]), if_neg (by simp [hdir]),
      if_neg (by simp [enumerateTasks_isEmpty]), if_pos (by simp [htp]),
      htp, hlen]
    rfl

/-- C2 witness: the amended behaviour at the two concrete post-first-run
states: after the run on the one-file source emptied and removed the
source root, the second run fails with a missing source; after the
spec-scenario run the source root survives with one subdirectory, and the
second run skips those 2 surviving entries and processes 0 (the first run
had created 3 destination entries). -/
theorem rerun_skip_semantics_witness :
    move_directory_concurrent envClean
        (move_directory_concurrent envClean fsC2 ["s"] ["t"]).1 ["s"] ["t"]
      = ((move_directory_concurrent envClean fsC2 ["s"] ["t"]).1,
          .error .sourceNotExist)
    ∧ move_directory_concurrent envClean
        (move_directory_concurrent envClean fsC3 ["s"] ["t"]).1 ["s"] ["t"]
      = ((move_directory_concurrent envClean fsC3 ["s"] ["t"]).1,
          .ok ⟨2, 2, 0, 0⟩) := by
  constructor
  · exact (rerun_skip_semantics envClean
      (move_directory_concurrent envClean fsC2 ["s"] ["t"]).1 ["s"] ["t"]).1
      (by decide)
  · have h := (rerun_skip_semantics envClean
      (move_directory_concurrent envClean fsC3 ["s"] ["t"]).1 ["s"] ["t"]).2
      (by decide) (by decide) (by decide)
    exact h.trans (by rfl)

/-- C3 counterexample: in the exact spec scenario the run reports
total 4 / skipped 1 / processed 3 (the walk includes the source root as a
task, and the pre-existing empty destination root gets skipped), not
total 3 / skipped 0 / processed 3, and after the run the source root is
still present (holding the never-removed empty directory a). -/
theorem scenario_summary_cex :
    (move_directory_concurrent envClean fsC3 ["s"] ["t"]).2 = .ok ⟨4, 1, 3, 0⟩
    ∧ (⟨4, 1, 3, 0⟩ : RunStats) ≠ ⟨3, 0, 3, 0⟩
    ∧ lookupBy (move_directory_concurrent envClean fsC3 ["s"] ["t"]).1 ["s"]
        = some Entry.dir :=
  ⟨rfl, by decide, rfl⟩

/-- C3 (amended): in the spec scenario one successful run yields the
expected destination tree - a as a directory, a/x with content hi, b with
content bye - and removes both source files, but the summary is
total 4 / skipped 1 / processed 3 / failed 0, and the source root is not
removed: it still holds the empty directory a. -/
theorem scenario_outcome :
    (move_directory_concurrent envClean fsC3 ["s"] ["t"]).2 = .ok ⟨4, 1, 3, 0⟩
    ∧ lookupBy (move_directory_concurrent envClean fsC3 ["s"] ["t"]).1 ["t"]
        = some Entry.dir
    ∧ lookupBy (move_directory_concurrent envClean fsC3 ["s"] ["t"]).1
        ["t", "a"] = some Entry.dir
    ∧ lookupBy (move_directory_concurrent envClean fsC3 ["s"] ["t"]).1
        ["t", "a", "x"] = some (Entry.file "hi")
    ∧ lookupBy (move_directory_concurrent envClean fsC3 ["s"] ["t"]).1
        ["t", "b"] = some (Entry.file "bye")
    ∧ lookupBy (move_directory_concurrent envClean fsC3 ["s"] ["t"]).1
        ["s", "a", "x"] = none
    ∧ lookupBy (move_directory_concurrent envClean fsC3 ["s"] ["t"]).1
        ["s", "b"] = none
    ∧ lookupBy (move_directory_concurrent envClean fsC3 ["s"] ["t"]).1 ["s"]
        = some Entry.dir
    ∧ lookupBy (move_directory_concurrent envClean fsC3 ["s"] ["t"]).1
        ["s", "a"] = some Entry.dir :=
  ⟨rfl, rfl, rfl, rfl, rfl, rfl, rfl, rfl, rfl⟩

/-- C4 counterexample: for the existing-but-empty source s with absent
destination t, the run succeeds but reports one total item, not zero: the
walk always yields the source root itself as a task, which is processed to
create the destination root, after which the now-empty source root is
removed. -/
theorem empty_source_total_cex :
    move_directory_concurrent envClean [(["s"], Entry.dir)] ["s"] ["t"]
      = ([(["t"], Entry.dir)], .ok ⟨1, 0, 1, 0⟩) :=
  rfl

/-- C4 (amended): for every existing, empty source root the engine
succeeds and ensures the destination root exists (provided no leading part
of the destination path is blocked by a non-directory entry), but it
reports one total item - the task for the source root itself - rather than
zero: that task is processed, creating the destination root, when the
destination was absent, or skipped when it was already present. -/
theorem empty_source_one_root_task
    (env : Env) (fs : FS) (srcDir destDir : FPath)
    (hroot : lookupBy fs srcDir = some Entry.dir)
    (hempty : ∀ kv ∈ fs, strictUnder srcDir kv.1 = false)
    (hdest : ∀ q ∈ nonNilInits destDir,
        lookupBy fs q = none ∨ lookupBy fs q = some Entry.dir)
    (hdne : destDir ≠ []) :
    ∃ fs' sk pr, move_directory_concurrent env fs srcDir destDir
        = (fs', .ok ⟨1, sk, pr, 0⟩) ∧ existsAt fs' destDir = true := by
  have hex : existsAt fs srcDir = true := existsAt_true_of_lookup _ _ _ hroot
  have hdir : isDir fs srcDir = true := by
    unfold isDir
    rw [hroot]
  have henum : enumerateTasks fs srcDir destDir = [⟨srcDir, destDir⟩] := by
    unfold enumerateTasks enumerate
    have hfil : (fs.map Prod.fst).filter (fun p => strictUnder srcDir p)
        = [] := by
      rw [List.filter_eq_nil_iff]
      intro p hp
      rcases List.mem_map.mp hp with ⟨kv, hkv, rfl⟩
      simp [hempty kv hkv]
    rw [hfil]
    simp [mapDest_root]
  by_cases hdd : existsAt fs destDir = true
  · have hk : keepTask fs ⟨srcDir, destDir⟩ = false :=
      keepTask_false_of_exists fs ⟨srcDir, destDir⟩ (Or.inl hdir) hdd
    have htp : tasksToProcess fs srcDir destDir = [] := by
      unfold tasksToProcess
      rw [henum]
      simp [List.filter_cons, hk]
    refine ⟨fs, 1, 0, ?_, hdd⟩
    unfold move_directory_concurrent
    rw [if_neg (by simp [hex]), if_neg (by simp [hdir]),
      if_neg (by simp [enumerateTasks_isEmpty]), if_pos (by simp [htp]),
      htp, henum]
    rfl
  · have hddf : existsAt fs destDir = false := by
      cases hh : existsAt fs destDir
      · rfl
      · exact absurd hh hdd
    have hk : keepTask fs ⟨srcDir, destDir⟩ = true := by
      unfold keepTask
      rw [if_pos hdir, hddf]
      rfl
    have htp : tasksToProcess fs srcDir destDir = [⟨srcDir, destDir⟩] := by
      unfold tasksToProcess
      rw [henum]
      simp [List.filter_cons, hk]
    rcases createStep_ok (nonNilInits destDir) fs hdest with ⟨fs2, hok, hall⟩
    have hdd2 : lookupBy fs2 destDir = some Entry.dir :=
      hall destDir (self_mem_nonNilInits destDir hdne)
    have hmsi : move_single_item env fs srcDir destDir = (fs2, none) := by
      unfold move_single_item
      rw [if_neg hdd, if_pos hdir]
      unfold createDirAll
      rw [hok]
    have hne2 : destDir ≠ srcDir := by
      intro hh
      rw [hh] at hdd
      exact hdd hex
    refine ⟨cleanupRoot fs2 srcDir, 0, 1, ?_, ?_⟩
    · unfold move_directory_concurrent
      rw [if_neg (by simp [hex]), if_neg (by simp [hdir]),
        if_neg (by simp [enumerateTasks_isEmpty]), if_neg (by simp [htp]),
        htp, henum]
      simp only [runTasks]
      rw [hmsi]
      rfl
    · exact existsAt_true_of_lookup _ _ _
        (cleanupRoot_preserves fs2 srcDir destDir Entry.dir hdd2 hne2)

/-- C4 witness: the amended behaviour at the concrete empty source s with
absent destination t. -/
theorem empty_source_one_root_task_witness :
    ∃ fs' sk pr, move_directory_concurrent envClean [(["s"], Entry.dir)]
        ["s"] ["t"] = (fs', .ok ⟨1, sk, pr, 0⟩)
      ∧ existsAt fs' ["t"] = true :=
  empty_source_one_root_task envClean [(["s"], Entry.dir)] ["s"] ["t"]
    (by decide) (by decide) (by decide) (by decide)

/-- C7 (confirmed): when a file task's rename fails the mover falls back
to copy-then-delete: a copy failing with already-exists yields success
(success-by-skip), any other copy failure yields the fatal copy error for
this task, and a successful copy yields success even when deleting the
source file afterwards fails. -/
theorem copy_fallback_policy
    (env : Env) (fs : FS) (src dst : FPath)
    (hf : isFile fs src = true)
    (hd : ¬ existsAt fs dst = true)
    (hd1 : ¬ existsAt (ensureParent fs dst) dst = true)
    (hr : rename env (ensureParent fs dst) src dst = .error ()) :
    (∀ fs2, copyFile env (ensureParent fs dst) src dst = .ok fs2 →
        move_single_item env fs src dst = (removeFileBE env fs2 src, none))
    ∧ (copyFile env (ensureParent fs dst) src dst = .error .alreadyExists →
        move_single_item env fs src dst = (ensureParent fs dst, none))
    ∧ (∀ k, k ≠ ErrKind.alreadyExists →
        copyFile env (ensureParent fs dst) src dst = .error k →
        move_single_item env fs src dst
          = (ensureParent fs dst, some (.copyFailed k)))
    ∧ (env.removeFileFailSrcs.contains src = true →
        ∀ fs2, copyFile env (ensureParent fs dst) src dst = .ok fs2 →
        move_single_item env fs src dst = (fs2, none)) := by
  have hdf : ¬ isDir fs src = true := by
    simp [not_isDir_of_isFile fs src hf]
  have hred : move_single_item env fs src dst
      = match copyFile env (ensureParent fs dst) src dst with
        | .ok fs2 => (removeFileBE env fs2 src, none)
        | .error k =>
          if k = ErrKind.alreadyExists then (ensureParent fs dst, none)
          else (ensureParent fs dst, some (.copyFailed k)) := by
    unfold move_single_item
    rw [if_neg hd, if_neg hdf, if_pos hf, if_neg hd1]
    simp only [hr]
    rw [if_neg hd1]
  refine ⟨?_, ?_, ?_, ?_⟩
  · intro fs2 hcp
    rw [hred, hcp]
  · intro hcp
    rw [hred, hcp]
    rfl
  · intro k hk hcp
    rw [hred, hcp]
    simp [hk]
  · intro hcont fs2 hcp
    rw [hred, hcp]
    show (removeFileBE env fs2 src, (none : Option MoveError)) = (fs2, none)
    unfold removeFileBE
    rw [if_pos hcont]

/-- C7 witness: the concrete cross-volume fallback where rename fails,
copy succeeds and the source delete fails: the task succeeds, the data is
at the destination and the source file is still present. -/
theorem copy_fallback_policy_witness :
    move_single_item envC7 fsC7 ["s", "f"] ["t", "f"]
      = (insertFS fsC7 ["t", "f"] (.file "data"), none)
    ∧ lookupBy (move_single_item envC7 fsC7 ["s", "f"] ["t", "f"]).1
        ["s", "f"] = some (.file "data") := by
  have h := (copy_fallback_policy envC7 fsC7 ["s", "f"] ["t", "f"]
      (by decide) (by decide) (by decide) rfl).1
      (insertFS fsC7 ["t", "f"] (.file "data")) rfl
  exact ⟨h.trans rfl, by rfl⟩

/-- C8 (confirmed): the pool reports one terminal outcome per dispatched
task; the overall result is the first failure found when scanning the
collected results in dispatch order (later failures are discarded, as are
their payloads), and when no task failed the overall result is the success
summary. -/
theorem first_failure_scan_order
    (env : Env) (fs : FS) (srcDir destDir : FPath)
    (h1 : existsAt fs srcDir = true) (h2 : isDir fs srcDir = true)
    (h4 : tasksToProcess fs srcDir destDir ≠ []) :
    (runTasks env fs (tasksToProcess fs srcDir destDir)).2.length
        = (tasksToProcess fs srcDir destDir).length
    ∧ (∀ pre t e post,
        (runTasks env fs (tasksToProcess fs srcDir destDir)).2
            = pre ++ (t, some e) :: post →
        (∀ x ∈ pre, x.2 = none) →
        (move_directory_concurrent env fs srcDir destDir).2
          = .error (.moveFailed t.src t.dst e))
    ∧ ((∀ x ∈ (runTasks env fs (tasksToProcess fs srcDir destDir)).2,
          x.2 = none) →
        (move_directory_concurrent env fs srcDir destDir).2
          = .ok ⟨(enumerateTasks fs srcDir destDir).length,
              (enumerateTasks fs srcDir destDir).length
                - (tasksToProcess fs srcDir destDir).length,
              (tasksToProcess fs srcDir destDir).length, 0⟩) := by
  have h4' : ¬ (tasksToProcess fs srcDir destDir).isEmpty = true := by
    cases htp : tasksToProcess fs srcDir destDir with
    | nil => exact absurd htp h4
    | cons a l => simp
  refine ⟨runTasks_length env fs _, ?_, ?_⟩
  · intro pre t e post hdec hpre
    unfold move_directory_concurrent
    rw [if_neg (by simp [h1]), if_neg (by simp [h2]),
      if_neg (by simp [enumerateTasks_isEmpty]), if_neg h4',
      hdec, firstError_of_decomp pre t e post hpre]
  · intro hall
    unfold move_directory_concurrent
    rw [if_neg (by simp [h1]), if_neg (by simp [h2]),
      if_neg (by simp [enumerateTasks_isEmpty]), if_neg h4',
      firstError_none _ hall]

/-- C8 witness: with both file tasks failing their copies, the overall
result is the first failure in dispatch order (the one for s/f), not the
later one. -/
theorem first_failure_scan_order_witness :
    (move_directory_concurrent envC8 fsC8 ["s"] ["t"]).2
      = .error (.moveFailed ["s", "f"] ["t", "f"]
          (.copyFailed .permissionDenied)) := by
  have h := first_failure_scan_order envC8 fsC8 ["s"] ["t"]
    (by decide) (by decide) (by decide)
  exact h.2.1 [] ⟨["s", "f"], ["t", "f"]⟩ (.copyFailed .permissionDenied)
    [(⟨["s", "g"], ["t", "g"]⟩, some (.copyFailed .permissionDenied))]
    rfl (by simp)

/-- C9 (confirmed): the walk of an existing source root always yields the
root itself as the first task (mapped to the destination root), so a
source with N file entries and M directory entries below the root yields
N + M + 1 tasks, and the zero-task branch (and with it its
destination-creation error) is unreachable. -/
theorem enumeration_root_task (fs : FS) (srcDir destDir : FPath)
    (_hroot : lookupBy fs srcDir = some Entry.dir)
    (hother : (entriesUnder fs srcDir).filter (fun kv => isOtherEntry kv.2)
        = []) :
    (enumerateTasks fs srcDir destDir).head? = some ⟨srcDir, destDir⟩
    ∧ (enumerateTasks fs srcDir destDir).length
        = ((entriesUnder fs srcDir).filter
            (fun kv => isFileEntry kv.2)).length
          + ((entriesUnder fs srcDir).filter
              (fun kv => isDirEntry kv.2)).length + 1
    ∧ ∀ env k, (move_directory_concurrent env fs srcDir destDir).2
        ≠ .error (.createDestFailed k) := by
  refine ⟨?_, ?_, ?_⟩
  · unfold enumerateTasks enumerate
    simp [mapDest_root]
  · have hm : (enumerateTasks fs srcDir destDir).length
        = (entriesUnder fs srcDir).length + 1 := by
      unfold enumerateTasks enumerate entriesUnder
      rw [List.length_map, List.length_cons, length_filter_keys]
    have hsplit := count_split (entriesUnder fs srcDir)
    rw [hother] at hsplit
    simp only [List.length_nil] at hsplit
    omega
  · intro env k
    unfold move_directory_concurrent
    by_cases e1 : existsAt fs srcDir = false
    · rw [if_pos e1]
      simp
    · rw [if_neg e1]
      by_cases e2 : isDir fs srcDir = false
      · rw [if_pos e2]
        simp
      · rw [if_neg e2, if_neg (by simp [enumerateTasks_isEmpty])]
        by_cases e4 : (tasksToProcess fs srcDir destDir).isEmpty = true
        · rw [if_pos e4]
          simp
        · rw [if_neg e4]
          cases firstError
              (runTasks env fs (tasksToProcess fs srcDir destDir)).2 <;>
            simp

/-- C9 witness: in the spec scenario the walk yields the root task first
and 2 + 1 + 1 tasks in total, and the run does not fail with a
destination-creation error. -/
theorem enumeration_root_task_witness :
    (enumerateTasks fsC3 ["s"] ["t"]).head? = some ⟨["s"], ["t"]⟩
    ∧ (enumerateTasks fsC3 ["s"] ["t"]).length = 2 + 1 + 1
    ∧ (move_directory_concurrent envClean fsC3 ["s"] ["t"]).2
        ≠ .error (.createDestFailed .notFound) := by
  have h := enumeration_root_task fsC3 ["s"] ["t"] (by decide) (by decide)
  exact ⟨h.1, h.2.1, h.2.2 envClean .notFound⟩

end QuickShift
